import Mathlib

/-!
Verification of the shell command-parsing and process-execution engine
(src/shell_project). The definitions below are shallow embeddings of the
C++ functions in command_parser.cpp, process_manager.cpp and shell.cpp;
OS interactions (fork, waitpid, stat, getenv) are passed in as explicit
oracle parameters.
-/

namespace ShellVerify

/-- The C isspace predicate for the default locale, as used by
std::isspace in the scanners. -/
def isCSpace (c : Char) : Bool :=
  c = ' ' || c = '\t' || c = '\n' || c = '\x0b' || c = '\x0c' || c = '\r'

/-- Scanner state of CommandParser::parse_pipeline (command_parser.cpp,
lines 49-107): accumulated segments, tokens of the current segment, the
current token, and the two quote flags. -/
structure PPState where
  result : List (List String)
  currentTokens : List String
  currentToken : String
  inSingleQuote : Bool
  inDoubleQuote : Bool
deriving Repr, DecidableEq

/-- Initial scanner state. -/
def PPState.init : PPState := ⟨[], [], "", false, false⟩

/-- Append a character to the current token (the final else branch of the
scan loop, and the target of the escape branch). -/
def ppAdd (c : Char) (st : PPState) : PPState :=
  { st with currentToken := st.currentToken.push c }

/-- The first half of the pipe-operator branch: push the current token
onto the current segment when either the token or the segment is
nonempty. Note that this can push an EMPTY token when the segment is
already nonempty, which is what the C++ condition does. -/
def ppPushToken (st : PPState) : PPState :=
  if st.currentToken ≠ "" ∨ st.currentTokens ≠ [] then
    { st with currentTokens := st.currentTokens ++ [st.currentToken], currentToken := "" }
  else st

/-- The second half of the pipe-operator branch: emit the current segment
when it is nonempty. -/
def ppPushSegment (st : PPState) : PPState :=
  if st.currentTokens ≠ [] then
    { st with result := st.result ++ [st.currentTokens], currentTokens := [] }
  else st

/-- One non-escaped character of CommandParser::parse_pipeline: quote
toggles, top-level pipe splitting, top-level whitespace token breaks,
otherwise literal accumulation. -/
def ppStep (c : Char) (st : PPState) : PPState :=
  if c = '\'' ∧ st.inDoubleQuote = false then
    { st with inSingleQuote := !st.inSingleQuote }
  else if c = '"' ∧ st.inSingleQuote = false then
    { st with inDoubleQuote := !st.inDoubleQuote }
  else if c = '|' ∧ st.inSingleQuote = false ∧ st.inDoubleQuote = false then
    ppPushSegment (ppPushToken st)
  else if isCSpace c = true ∧ st.inSingleQuote = false ∧ st.inDoubleQuote = false then
    (if st.currentToken ≠ "" then
      { st with currentTokens := st.currentTokens ++ [st.currentToken], currentToken := "" }
    else st)
  else ppAdd c st

/-- The character loop of CommandParser::parse_pipeline. A backslash that
has a following character consumes it literally (checked before the quote
state, as in the C++ code); a backslash that is the final character falls
through to the normal branches and is appended literally. -/
def ppScan : List Char → PPState → PPState
  | [], st => st
  | [c], st => ppStep c st
  | c :: d :: rest, st =>
    if c = '\\' then ppScan rest (ppAdd d st)
    else ppScan (d :: rest) (ppStep c st)

/-- The final flush of CommandParser::parse_pipeline: when the current
token or the current segment is nonempty, the token (possibly empty) is
appended to the segment and the segment is emitted. -/
def ppFinish (st : PPState) : List (List String) :=
  if st.currentToken ≠ "" ∨ st.currentTokens ≠ [] then
    st.result ++ [st.currentTokens ++ [st.currentToken]]
  else st.result

/-- CommandParser::parse_pipeline: split a raw line into pipe-separated
segments of whitespace-delimited tokens, with quote and escape handling. -/
def parse_pipeline (line : String) : List (List String) :=
  ppFinish (ppScan line.toList PPState.init)

/-- The Command structure of shell.h: argument list, redirection files,
append flag, background flag, and the pipeline marker. -/
structure Command where
  arguments : List String
  input_file : String
  output_file : String
  append_output : Bool
  background : Bool
  is_pipeline : Bool
deriving Repr, DecidableEq

/-- A default-constructed Command. -/
def Command.initial : Command := ⟨[], "", "", false, false, false⟩

/-- The loop of CommandParser::parse_redirection: a token equal to one of
the three redirection operators that has a following token consumes the
next token as the file path; a trailing operator with no following token
is kept in the remaining token list. -/
def redirLoop : List String → Command → List String → Command × List String
  | [], cmd, acc => (cmd, acc)
  | t :: rest, cmd, acc =>
    if t = "<" then
      match rest with
      | f :: rest2 => redirLoop rest2 { cmd with input_file := f } acc
      | [] => redirLoop [] cmd (acc ++ [t])
    else if t = ">" then
      match rest with
      | f :: rest2 => redirLoop rest2 { cmd with output_file := f, append_output := false } acc
      | [] => redirLoop [] cmd (acc ++ [t])
    else if t = ">>" then
      match rest with
      | f :: rest2 => redirLoop rest2 { cmd with output_file := f, append_output := true } acc
      | [] => redirLoop [] cmd (acc ++ [t])
    else redirLoop rest cmd (acc ++ [t])

/-- CommandParser::parse_redirection (command_parser.cpp, lines 134-158). -/
def parse_redirection (cmd : Command) (tokens : List String) : Command × List String :=
  redirLoop tokens cmd []

/-- CommandParser::parse_background (command_parser.cpp, lines 161-167):
only an exact final token "&" sets the background flag and is dropped. -/
def parse_background (cmd : Command) (tokens : List String) : Command × List String :=
  if tokens.getLast? = some ("&") then ({ cmd with background := true }, tokens.dropLast)
  else (cmd, tokens)

/-- CommandParser::get_environment_variable: getenv, with the empty
string substituted for an unset variable. The process environment is the
oracle parameter env. -/
def getEnvVar (env : String → Option String) (name : String) : String :=
  (env name).getD ""

/-- Characters of a variable-name run: isalnum or underscore. -/
def isNameChar (c : Char) : Bool :=
  c.isAlphanum || c = '_'

/-- Mode of the variable-expansion scan of
CommandParser::expand_variables_in_token: between dollars, directly after
a dollar, inside a plain name run, or inside a dollar-brace name. -/
inductive ExpMode where
  | normal
  | dollar
  | varName (acc : List Char)
  | braceName (acc : List Char)
deriving Repr, DecidableEq

/-- Processing a character in normal mode: a dollar starts a variable
reference, anything else is copied to the output. -/
def stepNormal (c : Char) (out : List Char) : ExpMode × List Char :=
  if c = '$' then (ExpMode.dollar, out) else (ExpMode.normal, out ++ [c])

/-- One character of the expansion scan. In dollar mode, a brace opens a
dollar-brace name, a name character opens a plain name run, and any other
character triggers a lookup of the EMPTY name (whose value is appended)
after which the character itself is reprocessed in normal mode; this is
exactly what the C++ index jump i = j - 1 with an empty collected run
does. A name run ends at the first non-name character, which is likewise
reprocessed. A dollar-brace name ends at the closing brace. -/
def expandStep (env : String → Option String) : ExpMode × List Char → Char → ExpMode × List Char
  | (ExpMode.normal, out), c => stepNormal c out
  | (ExpMode.dollar, out), c =>
    if c = '\x7b' then (ExpMode.braceName [], out)
    else if isNameChar c then (ExpMode.varName [c], out)
    else stepNormal c (out ++ (getEnvVar env ("")).toList)
  | (ExpMode.varName acc, out), c =>
    if isNameChar c then (ExpMode.varName (acc ++ [c]), out)
    else stepNormal c (out ++ (getEnvVar env (String.mk acc)).toList)
  | (ExpMode.braceName acc, out), c =>
    if c = '\x7d' then (ExpMode.normal, out ++ (getEnvVar env (String.mk acc)).toList)
    else (ExpMode.braceName (acc ++ [c]), out)

/-- End-of-token handling of the expansion scan: a trailing bare dollar
is dropped WITHOUT any lookup (in the C++ code neither branch runs when
j equals the token length); an unfinished name run or an unterminated
dollar-brace name is looked up as collected (the brace closes implicitly
at token end). -/
def expandFinish (env : String → Option String) : ExpMode × List Char → List Char
  | (ExpMode.normal, out) => out
  | (ExpMode.dollar, out) => out
  | (ExpMode.varName acc, out) => out ++ (getEnvVar env (String.mk acc)).toList
  | (ExpMode.braceName acc, out) => out ++ (getEnvVar env (String.mk acc)).toList

/-- CommandParser::expand_variables_in_token (command_parser.cpp, lines
231-268), as a left fold of the character scan. -/
def expand_variables_in_token (env : String → Option String) (token : String) : String :=
  String.mk (expandFinish env (token.toList.foldl (expandStep env) (ExpMode.normal, [])))

/-- CommandParser::parse_single_command (command_parser.cpp, lines
110-131): extract redirections, then the background marker; the remaining
tokens, variable-expanded, are the arguments. -/
def parse_single_command (env : String → Option String) (tokens : List String) : Option Command :=
  if tokens = [] then none
  else
    let r1 := parse_redirection Command.initial tokens
    let r2 := parse_background r1.1 r1.2
    some { r2.1 with arguments := r2.2.map (expand_variables_in_token env) }

/-- CommandParser::parse_command (command_parser.cpp, lines 22-45): split
into pipeline segments; a single segment is parsed as a plain command; for
two or more segments ONLY THE FIRST segment is parsed and the resulting
command is marked with is_pipeline. -/
def parse_command (env : String → Option String) (line : String) : Option Command :=
  if line = "" then none
  else
    match parse_pipeline line with
    | [] => none
    | [seg] => parse_single_command env seg
    | seg :: _ :: _ =>
      match parse_single_command env seg with
      | none => none
      | some c => some { c with is_pipeline := true }

/-- The names recognized by BuiltinCommands::is_builtin
(builtin_commands.cpp, initialize_commands). -/
def shellBuiltins : List String :=
  ["cd", "pwd", "exit", "help", "export", "echo", "history"]

/-- What Shell::execute_command (shell.cpp, lines 141-184) does with one
input line: report a parse error on a null command, dispatch a builtin
first argument, and otherwise hand the ONE parsed command to
ProcessManager::execute_command; when the is_pipeline marker is set the
only difference is a printed notice, recorded here as the Bool field. -/
inductive ShellAction where
  | parseError
  | builtinCommand (name : String)
  | execSingle (cmd : Command) (pipelineNotice : Bool)
deriving Repr, DecidableEq

/-- Shell::execute_command (shell.cpp, lines 141-184). -/
def shell_execute (env : String → Option String) (line : String) : ShellAction :=
  match parse_command env line with
  | none => ShellAction.parseError
  | some cmd =>
    match cmd.arguments with
    | [] => ShellAction.execSingle cmd cmd.is_pipeline
    | name :: _ =>
      if name ∈ shellBuiltins then ShellAction.builtinCommand name
      else ShellAction.execSingle cmd cmd.is_pipeline

/-- Result of waitpid on a terminated child: WIFEXITED with an exit code,
or WIFSIGNALED with a signal number. -/
inductive WaitStatus where
  | exited (code : Nat)
  | signaled (sig : Nat)
deriving Repr, DecidableEq

/-- Translation of a wait status to the int returned by the engine: the
exit code itself, or 128 plus the signal number. -/
def statusOfWait : WaitStatus → Int
  | WaitStatus.exited c => (c : Int)
  | WaitStatus.signaled s => 128 + (s : Int)

/-- The filesystem as seen through stat: a path maps to its mode bits
when the file exists. -/
def Filesystem : Type := String → Option Nat

/-- ProcessManager::is_executable (process_manager.cpp, lines 229-237):
stat succeeds and any of the owner, group, or other execute bits (octal
100, 10, 1, that is bits 6, 3 and 0) is set. -/
def is_executable (fs : Filesystem) (path : String) : Bool :=
  match fs path with
  | none => false
  | some mode => mode.testBit 6 || mode.testBit 3 || mode.testBit 0

/-- The PATH-splitting loop of ProcessManager::search_path
(process_manager.cpp, lines 204-215): split on colons; the empty
component between consecutive colons, a leading colon, or a trailing
colon is skipped (the loop pushes a component only when end exceeds
start, and the tail only when start is below the length). -/
def splitPathAux : List Char → List Char → List String
  | [], acc => if acc = [] then [] else [String.mk acc]
  | c :: rest, acc =>
    if c = ':' then
      (if acc = [] then splitPathAux rest [] else String.mk acc :: splitPathAux rest [])
    else splitPathAux rest (acc ++ [c])

/-- ProcessManager::search_path PATH splitting, continued: the split over
the character sequence. -/
def splitPath (s : String) : List String :=
  splitPathAux s.toList []

/-- The directory loop of ProcessManager::search_path: try dir/name for
each directory in order, returning the first executable candidate, or the
empty string. -/
def searchDirs (fs : Filesystem) : List String → String → String
  | [], _ => ""
  | d :: rest, name =>
    if is_executable fs (d ++ "/" ++ name) then d ++ "/" ++ name
    else searchDirs fs rest name

/-- ProcessManager::search_path (process_manager.cpp, lines 195-226). The
PATH environment variable is the oracle parameter pathEnv; a missing PATH
yields the empty string. -/
def search_path (fs : Filesystem) (pathEnv : Option String) (name : String) : String :=
  match pathEnv with
  | none => ""
  | some p => searchDirs fs (splitPath p) name

/-- ProcessManager::find_executable (process_manager.cpp, lines 181-192):
a name containing a slash is checked directly, anything else goes through
the PATH search. -/
def find_executable (fs : Filesystem) (pathEnv : Option String) (name : String) : String :=
  if name.toList.contains '/' then
    (if is_executable fs name then name else "")
  else search_path fs pathEnv name

/-- The builtin names special-cased at the top of
ProcessManager::execute_command (process_manager.cpp, lines 40-44); note
this list differs from the one in BuiltinCommands (no history). -/
def pmBuiltinNames : List String :=
  ["cd", "pwd", "exit", "help", "echo", "export"]

/-- Observable outcome of ProcessManager::execute_command: whether a
child was forked, the messages written to stderr, the pids registered as
background processes, and the returned int status. -/
structure ExecOutcome where
  forked : Bool
  reported : List String
  registered : List Int
  status : Int
deriving Repr, DecidableEq

/-- ProcessManager::execute_command (process_manager.cpp, lines 31-87).
Oracles: the filesystem fs, the PATH variable pathEnv, the fork result
forkPid (none means fork failed), and the wait status childWait the child
would produce. Empty arguments and the builtin names return 0 with no
fork; an unresolvable executable reports the not-found message and
returns -1 WITHOUT forking; fork failure reports and returns -1; a
background command registers the pid and returns 0 without waiting; a
foreground command waits and translates the wait status. -/
def execute_command (fs : Filesystem) (pathEnv : Option String)
    (forkPid : Option Int) (childWait : WaitStatus) (cmd : Command) : ExecOutcome :=
  match cmd.arguments with
  | [] => ⟨false, [], [], 0⟩
  | name :: _ =>
    if name ∈ pmBuiltinNames then ⟨false, [], [], 0⟩
    else if find_executable fs pathEnv name = "" then
      ⟨false, ["Command not found: " ++ name], [], -1⟩
    else
      match forkPid with
      | none => ⟨false, ["Failed to fork process"], [], -1⟩
      | some pid =>
        if cmd.background then ⟨true, [], [pid], 0⟩
        else ⟨true, [], [], statusOfWait childWait⟩

/-- Index of the first failing call among the first n attempts of an
oracle, modelling the early-return failure checks of the pipe and fork
loops. -/
def firstFalse (ok : Nat → Bool) (n : Nat) : Option Nat :=
  (List.range n).find? (fun i => !(ok i))

/-- The wait loop of ProcessManager::execute_pipeline_internal
(process_manager.cpp, lines 161-175): waitpid every child in order, but
record a status only when the waited pid equals the last pid of the
list. -/
def waitLoop (waits : Nat → WaitStatus) (lastPid : Nat) : List Nat → Int → Int
  | [], acc => acc
  | p :: rest, acc =>
    waitLoop waits lastPid rest (if p = lastPid then statusOfWait (waits p) else acc)

/-- Observable outcome of a completed pipeline run: pipes allocated,
children forked, the pids waited on in order, and the final status. -/
structure PipelineTrace where
  pipesCreated : Nat
  forks : Nat
  waitedPids : List Nat
  status : Int
deriving Repr, DecidableEq

/-- Result of ProcessManager::execute_pipeline_internal: an early -1
return from a failed pipe call or a failed fork, or a completed run. -/
inductive PipelineResult where
  | pipeFailed (idx : Nat)
  | forkFailed (idx : Nat)
  | completed (t : PipelineTrace)
deriving Repr, DecidableEq

/-- ProcessManager::execute_pipeline_internal (process_manager.cpp, lines
103-178). Oracles: per-pipe success pipeOk, per-fork success forkOk, the
pid returned by the i-th fork, and the wait status of each pid. The
function creates length-1 pipes, forks one child per command, waits for
every child, and keeps as final status the translated wait status of the
LAST pid (the initial 0 if the list were empty). The descriptor wiring
inside each child is I/O-level behavior outside this model. -/
def execute_pipeline_internal (pipeOk forkOk : Nat → Bool) (pids : Nat → Nat)
    (waits : Nat → WaitStatus) (cmds : List Command) : PipelineResult :=
  match firstFalse pipeOk (cmds.length - 1) with
  | some i => PipelineResult.pipeFailed i
  | none =>
    match firstFalse forkOk cmds.length with
    | some i => PipelineResult.forkFailed i
    | none =>
      let childPids := (List.range cmds.length).map pids
      PipelineResult.completed
        ⟨cmds.length - 1, cmds.length, childPids,
         waitLoop waits (childPids.getLastD 0) childPids 0⟩

/-- Result of one non-blocking waitpid with WNOHANG on a tracked pid:
0 (still running), the pid itself with a wait status (finished), or -1
(error or no such process). -/
inductive ReapResult where
  | running
  | finished (st : WaitStatus)
  | error
deriving Repr, DecidableEq

/-- One line printed by the sweep for a reaped background process: the
pid together with either a nonzero exit code or a terminating signal
(the strings of the C++ code carry exactly these fields). -/
structure Report where
  pid : Nat
  bySignal : Bool
  value : Nat
deriving Repr, DecidableEq

/-- The report emitted for one reaped pid
(process_manager.cpp, lines 352-358): a nonzero exit code or a signal is
reported; an exit with code 0 produces NO report. -/
def reportFor (pid : Nat) : WaitStatus → List Report
  | WaitStatus.exited c => if c ≠ 0 then [⟨pid, false, c⟩] else []
  | WaitStatus.signaled s => [⟨pid, true, s⟩]

/-- Outcome of one sweep: the retained registry, in order, and the
reports printed, in order. -/
structure SweepOutcome where
  registry : List Nat
  reports : List Report
deriving Repr, DecidableEq

/-- ProcessManager::cleanup_finished_processes (process_manager.cpp,
lines 340-364): one non-blocking reap attempt per tracked pid; a running
pid is retained, a finished pid is dropped and reported per reportFor,
and an errored pid is dropped silently. -/
def cleanup_finished_processes (wait : Nat → ReapResult) : List Nat → SweepOutcome
  | [] => ⟨[], []⟩
  | p :: rest =>
    let tail := cleanup_finished_processes wait rest
    match wait p with
    | ReapResult.running => ⟨p :: tail.registry, tail.reports⟩
    | ReapResult.finished st => ⟨tail.registry, reportFor p st ++ tail.reports⟩
    | ReapResult.error => ⟨tail.registry, tail.reports⟩

/-- The reports contributed by one pid in a sweep. -/
def reportOf (wait : Nat → ReapResult) (p : Nat) : List Report :=
  match wait p with
  | ReapResult.finished st => reportFor p st
  | _ => []

/-- An environment with no variables set, for concrete evaluations. -/
def envEmpty : String → Option String := fun _ => none

/-- A filesystem with no files, for concrete evaluations. -/
def fsEmpty : Filesystem := fun _ => none

/-- A filesystem whose only entry is an owner-executable file at
/b/tool, for the PATH resolution example. -/
def fsTool : Filesystem := fun p => if p = "/b/tool" then some 64 else none

/-- The executable-resolution policy in the words of the specification:
split PATH on colons and return the first directory-joined candidate that
exists and has any executable permission bit set, first match winning. -/
def resolve_spec (fs : Filesystem) (pathEnv : Option String) (name : String) : String :=
  match pathEnv with
  | none => ""
  | some p =>
    match (splitPath p).find? (fun d => is_executable fs (d ++ "/" ++ name)) with
    | none => ""
    | some d => d ++ "/" ++ name

/-- A reap oracle for the sweep example: pid 7 has exited with code 3,
every other pid is still running. -/
def sweepWaitEx : Nat → ReapResult :=
  fun q => if q = 7 then ReapResult.finished (WaitStatus.exited 3) else ReapResult.running

/-- A second reap oracle for the second sweep of the example. -/
def sweepWait2Ex : Nat → ReapResult := fun _ => ReapResult.error

/-- The concrete run used for the command-not-found evaluations: no
files exist, PATH is /bin, fork would succeed, the command is a single
unknown name. -/
def notFoundRun : ExecOutcome :=
  execute_command fsEmpty (some ("/bin")) (some 5) (WaitStatus.exited 0)
    ⟨["nosuchcmd"], "", "", false, false, false⟩

theorem ppAdd_result (c : Char) (st : PPState) : (ppAdd c st).result = st.result := rfl

theorem ppPushToken_result (st : PPState) : (ppPushToken st).result = st.result := by
  unfold ppPushToken
  split_ifs <;> rfl

theorem ppPushSegment_segOK (st : PPState) (h : ∀ s ∈ st.result, s ≠ []) :
    ∀ s ∈ (ppPushSegment st).result, s ≠ [] := by
  unfold ppPushSegment
  split_ifs with hc
  · intro s hs
    rcases List.mem_append.mp hs with h1 | h1
    · exact h s h1
    · rw [List.mem_singleton.mp h1]
      exact hc
  · exact h

theorem ppStep_segOK (c : Char) (st : PPState) (h : ∀ s ∈ st.result, s ≠ []) :
    ∀ s ∈ (ppStep c st).result, s ≠ [] := by
  unfold ppStep
  split_ifs
  · exact h
  · exact h
  · exact ppPushSegment_segOK _ (by rw [ppPushToken_result]; exact h)
  · exact h
  · exact h
  · exact h

theorem ppScan_segOK : ∀ (cs : List Char) (st : PPState),
    (∀ s ∈ st.result, s ≠ []) → ∀ s ∈ (ppScan cs st).result, s ≠ []
  | [], st, h => by simpa [ppScan] using h
  | [c], st, h => by simpa [ppScan] using ppStep_segOK c st h
  | c :: d :: rest, st, h => by
    by_cases hc : c = '\\'
    · simp only [ppScan, if_pos hc]
      exact ppScan_segOK rest _ (by simpa [ppAdd] using h)
    · simp only [ppScan, if_neg hc]
      exact ppScan_segOK (d :: rest) _ (ppStep_segOK c st h)

theorem parse_pipeline_segOK (line : String) : ∀ s ∈ parse_pipeline line, s ≠ [] := by
  unfold parse_pipeline ppFinish
  have h := ppScan_segOK line.toList PPState.init (by intro s hs; simp [PPState.init] at hs)
  split_ifs
  · intro s hs
    rcases List.mem_append.mp hs with h1 | h1
    · exact h s h1
    · rw [List.mem_singleton.mp h1]
      simp
  · exact h

theorem parse_single_none_iff (env : String → Option String) (ts : List String) :
    parse_single_command env ts = none ↔ ts = [] := by
  unfold parse_single_command
  split_ifs with h <;> simp [h]

theorem redirLoop_cons_other (t : String) (h1 : t ≠ "<") (h2 : t ≠ ">") (h3 : t ≠ ">>")
    (rest : List String) (cmd : Command) (acc : List String) :
    redirLoop (t :: rest) cmd acc = redirLoop rest cmd (acc ++ [t]) := by
  cases rest with
  | nil => simp [redirLoop, h1, h2, h3]
  | cons f rest2 => simp [redirLoop, h1, h2, h3]

theorem redirLoop_skip : ∀ (ws : List String),
    (∀ w ∈ ws, w ≠ "<" ∧ w ≠ ">" ∧ w ≠ ">>") →
    ∀ (rest : List String) (cmd : Command) (acc : List String),
    redirLoop (ws ++ rest) cmd acc = redirLoop rest cmd (acc ++ ws)
  | [], _, rest, cmd, acc => by rw [List.nil_append, List.append_nil]
  | w :: ws, h, rest, cmd, acc => by
    obtain ⟨h1, h2, h3⟩ := h w (List.mem_cons_self w ws)
    have ih := redirLoop_skip ws (fun x hx => h x (List.mem_cons_of_mem w hx)) rest cmd (acc ++ [w])
    rw [List.cons_append, redirLoop_cons_other w h1 h2 h3, ih, List.append_assoc]
    rfl

theorem redirLoop_no_ops (ws : List String)
    (h : ∀ w ∈ ws, w ≠ "<" ∧ w ≠ ">" ∧ w ≠ ">>") (cmd : Command) (acc : List String) :
    redirLoop ws cmd acc = (cmd, acc ++ ws) := by
  have := redirLoop_skip ws h [] cmd acc
  rw [List.append_nil] at this
  rw [this, redirLoop]

/-- C1: the claim says a multi-segment line yields one fully-specified
command per segment, all run through the pipeline orchestrator, with the
final status that of the last stage. The code instead builds a command
from the FIRST segment only (parse_command, lines 37-44), and
Shell::execute_command runs that one command as a single process after
printing a notice; no pipeline orchestration happens. Here the example
line of the spec splits into 3 segments, yet the dispatched action is a
single-command execution whose arguments come from the first segment
alone (with the empty token the splitter appends before each pipe). -/
theorem C1_pipeline_first_segment_only :
    (parse_pipeline ("ls | grep foo | wc -l")).length = 3 ∧
    shell_execute envEmpty ("ls | grep foo | wc -l") =
      ShellAction.execSingle ⟨["ls", ""], "", "", false, false, true⟩ true := by
  constructor
  · decide
  · decide

/-- C2 counterexample: a line ending inside an unterminated double quote
is parsed successfully (the quote closes implicitly at end of line) and
the resulting command IS dispatched for execution, contradicting the
claim that such a line is a reported parse failure that is never
executed. -/
theorem C2_counterexample :
    shell_execute envEmpty ("grep \"foo") =
      ShellAction.execSingle ⟨["grep", "foo"], "", "", false, false, false⟩ false := by
  decide

/-- C2 amended: parsing never fails because of an open quote state; the
ONLY way parse_command rejects a line is that the line produces no
segments at all (empty or all-whitespace input). An unterminated quote is
silently closed at end of line and the command is built and executed like
any other. -/
theorem C2_no_quote_failure (env : String → Option String) (line : String) :
    parse_command env line = none ↔ parse_pipeline line = [] := by
  unfold parse_command
  split_ifs with h
  · subst h
    simp only [true_iff]
    decide
  · cases hp : parse_pipeline line with
    | nil => simp
    | cons seg rest =>
      have hseg : seg ≠ [] :=
        parse_pipeline_segOK line seg (by rw [hp]; exact List.mem_cons_self seg rest)
      cases rest with
      | nil =>
        simp only [parse_single_none_iff]
        simp [hseg]
      | cons seg2 rest2 =>
        have : parse_single_command env seg ≠ none := by
          rw [Ne, parse_single_none_iff]
          exact hseg
        cases hs : parse_single_command env seg with
        | none => exact absurd hs this
        | some c => simp [hs]

/-- C3 counterexample: the claim says an operator inside quotes is
literal text of its token and never recognized as an operator. But quote
information is discarded after tokenization, so a token consisting of
exactly a quoted ampersand IS recognized by parse_background: the quoted
ampersand of this line sets the background flag and disappears from the
arguments. -/
theorem C3_counterexample :
    parse_command envEmpty ("grep \"&\"") =
      some ⟨["grep"], "", "", false, true, false⟩ := by
  decide

/-- C3 amended: during scanning, the operator characters are indeed
literal inside quotes: in a quoted state the scanner appends a pipe,
redirection, or ampersand character to the current token and performs no
segment split or token break. The recognition leak is downstream: a token
that consists solely of a quoted operator is indistinguishable from an
operator token by the segment builder (see the counterexample). -/
theorem C3_quoted_operator_chars_literal (st : PPState) (c : Char)
    (hq : st.inSingleQuote = true ∨ st.inDoubleQuote = true)
    (hc : c = '|' ∨ c = '<' ∨ c = '>' ∨ c = '&') :
    ppStep c st = ppAdd c st := by
  rcases hc with rfl | rfl | rfl | rfl <;>
    rcases hq with h | h <;>
      simp [ppStep, isCSpace, h]

theorem C3_witness :
    ppStep '|' ⟨[], [], "", true, false⟩ = ppAdd '|' ⟨[], [], "", true, false⟩ :=
  C3_quoted_operator_chars_literal ⟨[], [], "", true, false⟩ '|' (Or.inl rfl) (Or.inl rfl)

/-- C4 counterexample: a redirection operator with no following token is
NOT a parse failure: the dangling operator is kept as a literal argument,
no input file is set, and the command is dispatched for execution. -/
theorem C4_counterexample :
    parse_command envEmpty ("cat <") = some ⟨["cat", "<"], "", "", false, false, false⟩ ∧
    shell_execute envEmpty ("cat <") =
      ShellAction.execSingle ⟨["cat", "<"], "", "", false, false, false⟩ false := by
  constructor
  · decide
  · decide

/-- C4 amended: a redirection operator that is the final token of a
segment (hence has no operand) is passed through unchanged by
parse_redirection: the command keeps its default (empty) redirection
fields and the operator stays in the token list as a literal argument;
no failure outcome exists. -/
theorem C4_dangling_redirection_literal (cmd : Command) (ws : List String) (op : String)
    (hop : op = "<" ∨ op = ">" ∨ op = ">>")
    (hws : ∀ w ∈ ws, w ≠ "<" ∧ w ≠ ">" ∧ w ≠ ">>") :
    parse_redirection cmd (ws ++ [op]) = (cmd, ws ++ [op]) := by
  unfold parse_redirection
  rw [redirLoop_skip ws hws [op] cmd []]
  rcases hop with rfl | rfl | rfl <;> simp [redirLoop]

theorem C4_witness :
    parse_redirection Command.initial (["cat"] ++ ["<"]) = (Command.initial, ["cat"] ++ ["<"]) :=
  C4_dangling_redirection_literal Command.initial ["cat"] "<" (Or.inl rfl) (by decide)

/-- C5 counterexample: a double pipe is NOT passed through as literal
argument text: each of its pipe characters acts as a top-level pipe
operator, so the line splits into two pipeline segments (with the empty
token the splitter appends before a pipe), and the command dispatched is
the first segment marked as a pipeline. -/
theorem C5_counterexample :
    parse_pipeline ("a || b") = [["a", ""], ["b"]] ∧
    shell_execute envEmpty ("a || b") =
      ShellAction.execSingle ⟨["a", ""], "", "", false, false, true⟩ true := by
  constructor
  · decide
  · decide

/-- C5 amended: a token sequence free of redirection operators and of a
trailing ampersand builds a command whose arguments are exactly those
tokens, variable-expanded, in order; in particular the semicolon and the
double ampersand are ordinary literal argument tokens. The double pipe is
the exception: it is split as two pipe operators (see the
counterexample). -/
theorem C5_semicolon_andand_literal (env : String → Option String) (ts : List String)
    (hops : ∀ w ∈ ts, w ≠ "<" ∧ w ≠ ">" ∧ w ≠ ">>")
    (hbg : ts.getLast? ≠ some ("&")) (hne : ts ≠ []) :
    parse_single_command env ts =
      some ⟨ts.map (expand_variables_in_token env), "", "", false, false, false⟩ := by
  have h1 : parse_redirection Command.initial ts = (Command.initial, ts) := by
    unfold parse_redirection
    rw [redirLoop_no_ops ts hops Command.initial [], List.nil_append]
  have h2 : parse_background Command.initial ts = (Command.initial, ts) := by
    unfold parse_background
    rw [if_neg hbg]
  unfold parse_single_command
  rw [if_neg hne]
  simp only [h1, h2]
  rfl

theorem C5_witness :
    parse_single_command envEmpty ["echo", "x", ";", "y", "&&", "z"] =
      some ⟨["echo", "x", ";", "y", "&&", "z"].map (expand_variables_in_token envEmpty),
            "", "", false, false, false⟩ :=
  C5_semicolon_andand_literal envEmpty ["echo", "x", ";", "y", "&&", "z"]
    (by decide) (by decide) (by decide)

/-- C6 counterexample: for a command whose name resolves to no
executable, the engine-surfaced status is -1, not 127 as the claim
states; no process is spawned. (127 appears in the code only as the exit
code a forked child uses when exec fails.) -/
theorem C6_counterexample :
    notFoundRun.status = -1 ∧ notFoundRun.status ≠ 127 ∧ notFoundRun.forked = false := by
  refine ⟨by decide, by decide, by decide⟩

/-- C6 amended: when the first argument is not one of the special-cased
builtin names and cannot be resolved to an executable, execute_command
reports the not-found message and returns -1 — a nonzero status — without
forking; the surfaced status is -1, not 127. -/
theorem C6_not_found_no_spawn (fs : Filesystem) (pathEnv : Option String)
    (forkPid : Option Int) (w : WaitStatus) (cmd : Command) (name : String)
    (rest : List String)
    (hargs : cmd.arguments = name :: rest)
    (hnb : name ∉ pmBuiltinNames)
    (hnf : find_executable fs pathEnv name = "") :
    execute_command fs pathEnv forkPid w cmd =
      ⟨false, ["Command not found: " ++ name], [], -1⟩ ∧
    ((-1 : Int) ≠ 0) ∧ ((-1 : Int) ≠ 127) := by
  refine ⟨?_, by decide, by decide⟩
  obtain ⟨args, i1, o1, a1, b1, p1⟩ := cmd
  dsimp only at hargs
  subst hargs
  simp [execute_command, hnb, hnf]

theorem C6_witness :
    execute_command fsEmpty (some ("/bin")) (some 5) (WaitStatus.exited 0)
      ⟨["nosuchcmd"], "", "", false, false, false⟩ =
      ⟨false, ["Command not found: " ++ "nosuchcmd"], [], -1⟩ ∧
    ((-1 : Int) ≠ 0) ∧ ((-1 : Int) ≠ 127) :=
  C6_not_found_no_spawn fsEmpty (some ("/bin")) (some 5) (WaitStatus.exited 0)
    ⟨["nosuchcmd"], "", "", false, false, false⟩ "nosuchcmd" []
    rfl (by decide) (by decide)

theorem searchDirs_eq (fs : Filesystem) (name : String) : ∀ (dirs : List String),
    searchDirs fs dirs name =
      (match dirs.find? (fun d => is_executable fs (d ++ "/" ++ name)) with
       | none => ""
       | some d => d ++ "/" ++ name)
  | [] => by simp [searchDirs]
  | d :: rest => by
    by_cases h : is_executable fs (d ++ "/" ++ name) = true
    · rw [@List.find?_cons_of_pos _ (fun x => is_executable fs (x ++ "/" ++ name)) d rest h]
      simp [searchDirs, h]
    · rw [@List.find?_cons_of_neg _ (fun x => is_executable fs (x ++ "/" ++ name)) d rest
        (by simp [h])]
      rw [← searchDirs_eq fs name rest]
      simp [searchDirs, h]

/-- C7: executable resolution for a name without a slash goes through the
PATH search, and the PATH search returns exactly the first
directory-joined candidate, in PATH order, that exists with any
executable permission bit set (resolve_spec states this policy in the
words of the specification, via find?). -/
theorem C7_path_resolution (fs : Filesystem) (pathEnv : Option String) (name : String)
    (h : name.toList.contains '/' = false) :
    find_executable fs pathEnv name = resolve_spec fs pathEnv name := by
  unfold find_executable
  simp only [h, Bool.false_eq_true, if_false]
  unfold search_path resolve_spec
  cases pathEnv with
  | none => rfl
  | some p => exact searchDirs_eq fs name (splitPath p)

theorem C7_witness :
    ("tool".toList.contains '/' = false) ∧
    find_executable fsTool (some ("/a:/b")) "tool" = resolve_spec fsTool (some ("/a:/b")) "tool" ∧
    find_executable fsTool (some ("/a:/b")) "tool" = "/b/tool" :=
  ⟨by decide, C7_path_resolution fsTool (some ("/a:/b")) "tool" (by decide), by decide⟩

theorem firstFalse_eq_none (ok : Nat → Bool) (n : Nat) (h : ∀ i < n, ok i = true) :
    firstFalse ok n = none := by
  unfold firstFalse
  rw [List.find?_eq_none]
  intro i hi
  simp [h i (List.mem_range.mp hi)]

theorem waitLoop_eq (waits : Nat → WaitStatus) (lastPid : Nat) :
    ∀ (l : List Nat) (acc : Int),
      waitLoop waits lastPid l acc = if lastPid ∈ l then statusOfWait (waits lastPid) else acc
  | [], acc => by simp [waitLoop]
  | p :: rest, acc => by
    rw [waitLoop, waitLoop_eq waits lastPid rest]
    by_cases hm : lastPid ∈ rest
    · simp [hm]
    · by_cases hp : p = lastPid
      · subst hp
        simp [hm]
      · have hq : lastPid ≠ p := fun hh => hp hh.symm
        simp [hm, hp, hq]

theorem getLastD_map_range (f : Nat → Nat) (n : Nat) (h : 1 ≤ n) :
    ((List.range n).map f).getLastD 0 = f (n - 1) := by
  obtain ⟨m, rfl⟩ : ∃ m, n = m + 1 := ⟨n - 1, by omega⟩
  rw [List.range_succ, List.map_append]
  simp

theorem pipeline_completed (pipeOk forkOk : Nat → Bool) (pids : Nat → Nat)
    (waits : Nat → WaitStatus) (cmds : List Command)
    (h2 : 2 ≤ cmds.length)
    (hp : ∀ i < cmds.length - 1, pipeOk i = true)
    (hf : ∀ i < cmds.length, forkOk i = true) :
    execute_pipeline_internal pipeOk forkOk pids waits cmds =
      PipelineResult.completed
        ⟨cmds.length - 1, cmds.length, (List.range cmds.length).map pids,
         statusOfWait (waits (pids (cmds.length - 1)))⟩ := by
  unfold execute_pipeline_internal
  rw [firstFalse_eq_none _ _ hp, firstFalse_eq_none _ _ hf]
  have h1 : 1 ≤ cmds.length := le_trans (by omega) h2
  simp only [getLastD_map_range pids cmds.length h1, waitLoop_eq]
  rw [if_pos]
  exact List.mem_map.mpr ⟨cmds.length - 1, List.mem_range.mpr (by omega), rfl⟩

/-- C8: for an N-command pipeline with N at least 2 under successful pipe
and fork oracles, the orchestrator creates N-1 pipes, forks N children,
waits on all N pids in order, and the final status is the translated wait
status (exit code, or 128 plus signal) of the LAST pid only; moreover any
other wait oracle that agrees on the last pid yields the identical
result, so earlier-stage outcomes are irrelevant. -/
theorem C8_pipeline_orchestration (pipeOk forkOk : Nat → Bool) (pids : Nat → Nat)
    (waits : Nat → WaitStatus) (cmds : List Command)
    (h2 : 2 ≤ cmds.length)
    (hp : ∀ i < cmds.length - 1, pipeOk i = true)
    (hf : ∀ i < cmds.length, forkOk i = true) :
    execute_pipeline_internal pipeOk forkOk pids waits cmds =
      PipelineResult.completed
        ⟨cmds.length - 1, cmds.length, (List.range cmds.length).map pids,
         statusOfWait (waits (pids (cmds.length - 1)))⟩ ∧
    ∀ waits2 : Nat → WaitStatus,
      waits2 (pids (cmds.length - 1)) = waits (pids (cmds.length - 1)) →
      execute_pipeline_internal pipeOk forkOk pids waits2 cmds =
        execute_pipeline_internal pipeOk forkOk pids waits cmds := by
  refine ⟨pipeline_completed pipeOk forkOk pids waits cmds h2 hp hf, ?_⟩
  intro w2 hw
  rw [pipeline_completed pipeOk forkOk pids w2 cmds h2 hp hf,
      pipeline_completed pipeOk forkOk pids waits cmds h2 hp hf, hw]

theorem C8_witness :
    execute_pipeline_internal (fun _ => true) (fun _ => true) (fun i => 100 + i)
      (fun p => WaitStatus.exited (p - 100)) [Command.initial, Command.initial, Command.initial] =
      PipelineResult.completed
        ⟨[Command.initial, Command.initial, Command.initial].length - 1,
         [Command.initial, Command.initial, Command.initial].length,
         (List.range [Command.initial, Command.initial, Command.initial].length).map (fun i => 100 + i),
         statusOfWait ((fun p => WaitStatus.exited (p - 100))
           ((fun i => 100 + i) ([Command.initial, Command.initial, Command.initial].length - 1)))⟩ ∧
    ∀ waits2 : Nat → WaitStatus,
      waits2 ((fun i => 100 + i) ([Command.initial, Command.initial, Command.initial].length - 1)) =
        (fun p => WaitStatus.exited (p - 100))
          ((fun i => 100 + i) ([Command.initial, Command.initial, Command.initial].length - 1)) →
      execute_pipeline_internal (fun _ => true) (fun _ => true) (fun i => 100 + i) waits2
        [Command.initial, Command.initial, Command.initial] =
      execute_pipeline_internal (fun _ => true) (fun _ => true) (fun i => 100 + i)
        (fun p => WaitStatus.exited (p - 100)) [Command.initial, Command.initial, Command.initial] :=
  C8_pipeline_orchestration (fun _ => true) (fun _ => true) (fun i => 100 + i)
    (fun p => WaitStatus.exited (p - 100)) [Command.initial, Command.initial, Command.initial]
    (by decide) (fun _ _ => rfl) (fun _ _ => rfl)

theorem reportFor_pid (p : Nat) (st : WaitStatus) : ∀ r ∈ reportFor p st, r.pid = p := by
  cases st with
  | exited c =>
    by_cases h : c ≠ 0
    · simp [reportFor, h]
    · simp [reportFor, h]
  | signaled s => simp [reportFor]

theorem reportOf_pid (wait : Nat → ReapResult) (q : Nat) :
    ∀ r ∈ reportOf wait q, r.pid = q := by
  cases hw : wait q with
  | running => simp [reportOf, hw]
  | finished st =>
    simp only [reportOf, hw]
    exact reportFor_pid q st
  | error => simp [reportOf, hw]

theorem sweep_closed (wait : Nat → ReapResult) : ∀ (procs : List Nat),
    cleanup_finished_processes wait procs =
      ⟨procs.filter (fun q => decide (wait q = ReapResult.running)),
       (procs.map (reportOf wait)).flatten⟩
  | [] => rfl
  | p :: rest => by
    have ih := sweep_closed wait rest
    cases hw : wait p with
    | running => simp [cleanup_finished_processes, hw, ih, reportOf, List.filter_cons]
    | finished st => simp [cleanup_finished_processes, hw, ih, reportOf, List.filter_cons]
    | error => simp [cleanup_finished_processes, hw, ih, reportOf, List.filter_cons]

theorem countP_reports (wait : Nat → ReapResult) (p : Nat) : ∀ (procs : List Nat),
    ((procs.map (reportOf wait)).flatten).countP (fun r => decide (r.pid = p)) =
      procs.count p * (reportOf wait p).length
  | [] => by simp
  | q :: rest => by
    have ih := countP_reports wait p rest
    by_cases hq : q = p
    · subst hq
      simp only [List.map_cons, List.flatten_cons, List.countP_append, ih, List.count_cons]
      have hall : (reportOf wait q).countP (fun r => decide (r.pid = q)) =
          (reportOf wait q).length := by
        rw [List.countP_eq_length]
        intro r hr
        simp [reportOf_pid wait q r hr]
      rw [hall]
      simp [Nat.succ_mul, Nat.add_comm]
    · have h0 : (reportOf wait q).countP (fun r => decide (r.pid = p)) = 0 := by
        rw [List.countP_eq_zero]
        intro r hr
        simp [reportOf_pid wait q r hr, hq]
      simp only [List.map_cons, List.flatten_cons, List.countP_append, ih, h0, List.count_cons]
      simp [Ne.symm hq]
      exact Or.inl hq

/-- C9 counterexample: the claim says a terminated pid is removed and its
exit code or terminating signal is reported exactly once. A background
pid that exited with code 0 IS removed by one sweep, but NOTHING is
reported for it: the code only prints for a nonzero exit code or a
signal. -/
theorem C9_counterexample :
    cleanup_finished_processes (fun _ => ReapResult.finished (WaitStatus.exited 0)) [5] =
      ⟨[], []⟩ := by
  decide

/-- C9 amended: one sweep retains every still-running pid; a pid whose
reap observes termination is removed, and is reported exactly once when
it exited with a NONZERO code or died from a signal (reportFor length 1)
and zero times when it exited with code 0 (reportFor length 0); a second
sweep, under any reap oracle, neither retains nor reports that pid
again. -/
theorem C9_sweep_reports_once (wait wait2 : Nat → ReapResult) (procs : List Nat)
    (p : Nat) (st : WaitStatus)
    (hc : procs.count p = 1) (hw : wait p = ReapResult.finished st) :
    (∀ q ∈ procs, wait q = ReapResult.running →
      q ∈ (cleanup_finished_processes wait procs).registry) ∧
    p ∉ (cleanup_finished_processes wait procs).registry ∧
    (cleanup_finished_processes wait procs).reports.countP (fun r => decide (r.pid = p)) =
      (reportFor p st).length ∧
    p ∉ (cleanup_finished_processes wait2
          (cleanup_finished_processes wait procs).registry).registry ∧
    (cleanup_finished_processes wait2
      (cleanup_finished_processes wait procs).registry).reports.countP
        (fun r => decide (r.pid = p)) = 0 := by
  have hreg : (cleanup_finished_processes wait procs).registry =
      procs.filter (fun q => decide (wait q = ReapResult.running)) := by
    rw [sweep_closed wait procs]
  have hrep : (cleanup_finished_processes wait procs).reports =
      (procs.map (reportOf wait)).flatten := by
    rw [sweep_closed wait procs]
  have hp1 : p ∉ (cleanup_finished_processes wait procs).registry := by
    rw [hreg]
    intro hmem
    have h2 := (List.mem_filter.mp hmem).2
    simp [hw] at h2
  have hs2 := sweep_closed wait2 ((cleanup_finished_processes wait procs).registry)
  refine ⟨?_, hp1, ?_, ?_, ?_⟩
  · intro q hq hr
    rw [hreg]
    exact List.mem_filter.mpr ⟨hq, by simp [hr]⟩
  · rw [hrep, countP_reports wait p procs, hc, one_mul]
    simp [reportOf, hw]
  · rw [hs2]
    intro hmem
    exact hp1 (List.mem_filter.mp hmem).1
  · rw [hs2]
    dsimp only
    rw [countP_reports wait2 p _, List.count_eq_zero.mpr hp1]
    simp

theorem C9_witness :
    (∀ q ∈ [7], sweepWaitEx q = ReapResult.running →
      q ∈ (cleanup_finished_processes sweepWaitEx [7]).registry) ∧
    7 ∉ (cleanup_finished_processes sweepWaitEx [7]).registry ∧
    (cleanup_finished_processes sweepWaitEx [7]).reports.countP (fun r => decide (r.pid = 7)) =
      (reportFor 7 (WaitStatus.exited 3)).length ∧
    7 ∉ (cleanup_finished_processes sweepWait2Ex
          (cleanup_finished_processes sweepWaitEx [7]).registry).registry ∧
    (cleanup_finished_processes sweepWait2Ex
      (cleanup_finished_processes sweepWaitEx [7]).registry).reports.countP
        (fun r => decide (r.pid = 7)) = 0 :=
  C9_sweep_reports_once sweepWaitEx sweepWait2Ex [7] 7 (WaitStatus.exited 3)
    (by decide) (by decide)

theorem expandStep_preOut (env : String → Option String) (pre : List Char)
    (m : ExpMode) (out : List Char) (c : Char) :
    expandStep env (m, pre ++ out) c =
      ((expandStep env (m, out) c).1, pre ++ (expandStep env (m, out) c).2) := by
  cases m <;> simp only [expandStep, stepNormal] <;> split_ifs <;>
    simp [List.append_assoc]

theorem expandFold_preOut (env : String → Option String) :
    ∀ (cs : List Char) (m : ExpMode) (out pre : List Char),
    cs.foldl (expandStep env) (m, pre ++ out) =
      ((cs.foldl (expandStep env) (m, out)).1, pre ++ (cs.foldl (expandStep env) (m, out)).2)
  | [], m, out, pre => by simp
  | c :: cs, m, out, pre => by
    simp only [List.foldl_cons]
    rw [expandStep_preOut env pre m out c]
    exact expandFold_preOut env cs _ _ pre

theorem expandFinish_preOut (env : String → Option String) (m : ExpMode)
    (out pre : List Char) :
    expandFinish env (m, pre ++ out) = pre ++ expandFinish env (m, out) := by
  cases m <;> simp [expandFinish, List.append_assoc]

/-- C10 counterexample: the claim says a bare dollar followed by a
non-name character is emitted literally. In fact the dollar is DROPPED:
the empty variable name is looked up (empty value here) and scanning
continues with the following character, so the token shrinks. -/
theorem C10_counterexample :
    expand_variables_in_token envEmpty ("$%") = "%" ∧
    expand_variables_in_token envEmpty ("$%") ≠ "$%" := by
  refine ⟨by decide, by decide⟩

/-- C10 amended: when a dollar is followed by a character that is neither
a name character nor an opening brace, the scanner substitutes the value
of the EMPTY variable name (the empty string when unset) in place of the
dollar — dropping the dollar — and continues with that character; a
trailing bare dollar is likewise dropped (with no lookup at all). -/
theorem C10_bare_dollar_dropped (env : String → Option String) (c : Char) (s : List Char)
    (h1 : isNameChar c = false) (h2 : c ≠ '\x7b') :
    expand_variables_in_token env (String.mk ('$' :: c :: s)) =
      getEnvVar env ("") ++ expand_variables_in_token env (String.mk (c :: s)) := by
  unfold expand_variables_in_token
  have ht : ∀ l : List Char, (String.mk l).toList = l := fun _ => rfl
  rw [ht, ht]
  simp only [List.foldl_cons]
  have e1 : expandStep env (ExpMode.normal, ([] : List Char)) '$' = (ExpMode.dollar, []) := by
    simp [expandStep, stepNormal]
  rw [e1]
  have e2 : expandStep env (ExpMode.dollar, ([] : List Char)) c =
      ((expandStep env (ExpMode.normal, ([] : List Char)) c).1,
       (getEnvVar env ("")).toList ++ (expandStep env (ExpMode.normal, ([] : List Char)) c).2) := by
    have hstep : expandStep env (ExpMode.dollar, ([] : List Char)) c =
        stepNormal c ([] ++ (getEnvVar env ("")).toList) := by
      simp [expandStep, h1, h2]
    have hp := expandStep_preOut env ((getEnvVar env ("")).toList) ExpMode.normal [] c
    rw [List.append_nil] at hp
    rw [hstep, List.nil_append]
    exact hp
  rw [e2]
  rw [expandFold_preOut env s _ _ ((getEnvVar env ("")).toList)]
  rw [expandFinish_preOut]
  rfl

theorem C10_witness :
    expand_variables_in_token envEmpty (String.mk ['$', '%']) =
      getEnvVar envEmpty ("") ++ expand_variables_in_token envEmpty (String.mk ['%']) :=
  C10_bare_dollar_dropped envEmpty '%' [] (by decide) (by decide)

end ShellVerify
